import Mathlib

/-!
Verification development for the cookiecut image-processing module
(`src/cookiecut.js`).  JavaScript numbers are modelled as rationals
(all quantities occurring in the verified claims are exact in ℚ),
GPU shader arithmetic as real numbers, JS arrays as lists, and
thrown exceptions as `Except.error`.
-/

/-! ## JS values arising in the distance functions

In `dctGradientDistance` the final `.reduce((x, y) => x + y)` runs over the
*array of rows* produced by the outer `a.map(...)`: its values are arrays of
numbers, and once two of them have been added, strings.  The JS `+` operator
on such values first converts an array operand to a string (`Array.prototype.
toString` joins the elements with commas) and concatenates whenever an operand
is a string; only number + number adds numerically.  `JSVal` covers exactly
this value domain: numbers, strings, and flat arrays of numbers.
-/

inductive JSVal where
  | num (q : ℚ)
  | str (s : String)
  | arr (l : List ℚ)
deriving DecidableEq, Repr

/-- JS number-to-string conversion, for the integral values that occur in the
concrete evaluations below: JS prints an integral double with no decimal
point, which coincides with printing its integer numerator. -/
def jsNumberToString (q : ℚ) : String :=
  if q.den = 1 then toString q.num else toString q

/-- JS ToString on the `JSVal` domain; an array stringifies by joining its
elements with commas. -/
def jsValToString : JSVal → String
  | .num q => jsNumberToString q
  | .str s => s
  | .arr l => String.intercalate "," (l.map jsNumberToString)

/-- The JS `+` operator on the `JSVal` domain: number + number adds, any
other combination converts both operands to strings and concatenates. -/
def jsAdd (x y : JSVal) : JSVal :=
  match x, y with
  | .num a, .num b => .num (a + b)
  | a, b => .str (jsValToString a ++ jsValToString b)

/-! ## The matcher distance (src/cookiecut.js lines 95-104)

`dctGradientDistance(a, b)` weights each entry by
`1 - (rowIdx+colIdx)/maxIdx` times `Math.abs(b[rowIdx][colIdx] - x)` and then
reduces the *outer* array (whose elements are the weighted rows, i.e. arrays)
with `+`.  A JS `reduce` with no initial value throws on an empty array
(modelled as `none`) and returns the single element unchanged on a
one-element array.  Out-of-range JS index access would give `undefined`
(and `NaN` arithmetic); the claims only concern equal-shaped grids, where
every access is in range, so indexing is modelled with `getD`. -/
def dctGradientDistance (a b : List (List ℚ)) : Option JSVal :=
  let maxRow : ℚ := (a.length : ℚ) - 1
  let maxColumn : ℚ := ((a.headD []).length : ℚ) - 1
  let maxIdx : ℚ := maxRow + maxColumn + 1
  let weighted : List JSVal :=
    a.mapIdx fun rowIdx row => .arr <| row.mapIdx fun colIdx x =>
      (1 - ((rowIdx : ℚ) + (colIdx : ℚ)) / maxIdx)
        * |((b.getD rowIdx []).getD colIdx 0) - x|
  match weighted with
  | [] => none
  | v :: rest => some (rest.foldl jsAdd v)

/-- C2: the claim says `dctGradientDistance(a, b)` returns the *number*
`Σ (1 - (row+col)/(maxRow+maxCol+1)) * |b - a|`.  On the equal-shaped
non-empty 2×2 grids `a = b = [[0,0],[0,0]]` that sum is the number 0, but the
code reduces the array of weighted *rows* with `+`, which concatenates their
string forms and returns the string "0,00,0". -/
theorem dctGradientDistance_rows_reduce_to_string :
    dctGradientDistance [[0, 0], [0, 0]] [[0, 0], [0, 0]]
      = some (JSVal.str "0,00,0") := by
  have h : ∀ w : ℚ, w * |(0 : ℚ) - 0| = 0 := by intro w; simp
  simp [dctGradientDistance, List.mapIdx_cons, List.mapIdx_nil, jsAdd,
    jsValToString, h]
  decide

/-- C3: the claim says `dctGradientDistance(x, x) == 0`.  At
`x = [[0,0],[0,0]]` the code instead returns the string "0,00,0" (the rows
are arrays, and reducing them with `+` concatenates), which is not the
number 0. -/
theorem dctGradientDistance_self_not_zero :
    dctGradientDistance [[0, 0], [0, 0]] [[0, 0], [0, 0]]
      ≠ some (JSVal.num 0) := by
  have h : ∀ w : ℚ, w * |(0 : ℚ) - 0| = 0 := by intro w; simp
  simp [dctGradientDistance, List.mapIdx_cons, List.mapIdx_nil, jsAdd,
    jsValToString, h]

/-! ## Cell-size validation (src/cookiecut.js lines 86-91)

JS values reaching these validators are modelled as rationals;
`Number.isInteger(val)` holds exactly when the rational has denominator 1.
When the list is shorter than 2, the JS accesses `cellSize[0]`/`cellSize[1]`
give `undefined` and `isPositiveInteger(undefined)` is false; `getD` with
default 0 gives `isPositiveInteger 0 = false` as well, so the results agree
on every input. -/

def isPositiveInteger (val : ℚ) : Bool :=
  decide (0 < val) && decide (val.den = 1)

def isCellSize (cellSize : List ℚ) : Bool :=
  decide (cellSize.length ≠ 0) && decide (2 ≤ cellSize.length)
    && isPositiveInteger (cellSize.getD 0 0)
    && isPositiveInteger (cellSize.getD 1 0)

/-- Follows the wording of the spec (CellCount: a pair of positive integers),
not any check in the source: the ProcessingBuffer constructor never examines
its cellCount argument. -/
def cellCountValid (cellCount : List ℚ) : Bool :=
  decide (cellCount.length = 2) && isPositiveInteger (cellCount.getD 0 0)
    && isPositiveInteger (cellCount.getD 1 0)

/-! ## ProcessingBuffer construction (src/cookiecut.js lines 201-207)

The constructor throws (modelled as `Except.error`) exactly when
`isCellSize(cellSize)` fails, and otherwise records
width = cellSize[0]*cellCount[0] and height = cellSize[1]*cellCount[1].
The GPU texture/framebuffer setup holds no further observable state
relevant to the claims. -/
def ProcessingBuffer (cellSize cellCount : List ℚ) : Except String (ℚ × ℚ) :=
  if isCellSize cellSize = false then
    .error ("unexpected cell size value")
  else
    .ok (cellSize.getD 0 0 * cellCount.getD 0 0,
         cellSize.getD 1 0 * cellCount.getD 1 0)

/-- C7 counterexample: the claim says the constructor throws whenever the
CellCount is invalid.  With the valid CellSize [1,1] and the invalid
CellCount [0,1] (first component not positive) the constructor does not
throw: it succeeds with pixel dimensions 0 × 1. -/
theorem ProcessingBuffer_invalid_cellCount_not_rejected :
    ProcessingBuffer [1, 1] [0, 1] = .ok (0, 1)
      ∧ isPositiveInteger 0 = false := by
  constructor
  · have hvalid : isCellSize [1, 1] = true := by decide
    simp only [ProcessingBuffer, hvalid]
    norm_num
  · decide

/-- C7 amended: the constructor throws exactly when the CellSize is invalid
(the CellCount is never checked); with a valid CellSize and a valid CellCount
it succeeds with width = cellSize[0]*cellCount[0] and
height = cellSize[1]*cellCount[1]. -/
theorem ProcessingBuffer_validates_cellSize_only (cellSize cellCount : List ℚ) :
    ((∃ e, ProcessingBuffer cellSize cellCount = .error e)
        ↔ isCellSize cellSize = false)
    ∧ (isCellSize cellSize = true → cellCountValid cellCount = true →
        ProcessingBuffer cellSize cellCount
          = .ok (cellSize.getD 0 0 * cellCount.getD 0 0,
                 cellSize.getD 1 0 * cellCount.getD 1 0)) := by
  constructor
  · by_cases hv : isCellSize cellSize = false <;> simp [ProcessingBuffer, hv]
  · intro hv _
    simp [ProcessingBuffer, hv]

/-- Witness for C7 amended, at CellSize [2,3] and CellCount [4,5]. -/
theorem ProcessingBuffer_validates_cellSize_only_witness :
    isCellSize [2, 3] = true ∧ cellCountValid [4, 5] = true
      ∧ ProcessingBuffer [2, 3] [4, 5] = .ok (8, 15) := by
  refine ⟨by decide, by decide, ?_⟩
  have h := (ProcessingBuffer_validates_cellSize_only [2, 3] [4, 5]).2
    (by decide) (by decide)
  rw [h]
  norm_num

/-! ## The DCT shader program cache (src/cookiecut.js lines 134-190)

The cache inside `Context` is a JS `Map` from `cellSize.join()` (a string,
computed from the array values, joined with commas) to a compiled program.
Compiled GPU programs are modelled as consecutive integer handles; a
successful `compileShaders` call hands out the next handle.  `Map.set` only
happens under a preceding miss, so keys stay distinct and the map is an
association list extended at the head. -/

/-- `cellSize.join()`: the JS Array join with "," of the stringified
elements. -/
def joinKey (cellSize : List ℚ) : String :=
  String.intercalate "," (cellSize.map jsNumberToString)

structure DctCache where
  programs : List (String × ℕ)
  nextProgram : ℕ
deriving DecidableEq, Repr

/-- `addCellSize` (src lines 146-160): on a valid cell size not yet cached,
compile and insert; a redundant add or an invalid value only warns. -/
def addCellSize (cache : DctCache) (cellSize : List ℚ) : DctCache :=
  if isCellSize cellSize = true then
    match cache.programs.lookup (joinKey cellSize) with
    | some _ => cache
    | none => { programs := (joinKey cellSize, cache.nextProgram) :: cache.programs,
                nextProgram := cache.nextProgram + 1 }
  else cache

/-- `useDctProgram` (src lines 174-190): look up by `cellSize.join()`; on a
hit use the cached program, on a miss compile a new one, insert it under the
key, and use it.  Returns (new cache state, program used, whether a new
program was compiled). -/
def useDctProgram (cache : DctCache) (cellSize : List ℚ) : DctCache × ℕ × Bool :=
  match cache.programs.lookup (joinKey cellSize) with
  | some program => (cache, program, false)
  | none =>
      ({ programs := (joinKey cellSize, cache.nextProgram) :: cache.programs,
         nextProgram := cache.nextProgram + 1 },
       cache.nextProgram, true)

/-- C9: the DCT program cache is keyed by cell-size value, not reference.
For any two valid CellSizes (pairs of positive integers, possibly distinct
list objects) with equal components, after `addCellSize s` a call to
`useDctProgram t` hits the cache and compiles nothing new; and on a genuine
cache miss `useDctProgram` compiles a new program, inserts it under the value
key, and returns it (no error path in this model: shader compilation itself
is assumed to succeed). -/
theorem useDctProgram_value_keyed (cache : DctCache) (s t : List ℚ)
    (hs2 : s.length = 2) (ht2 : t.length = 2)
    (hs : isCellSize s = true) (ht : isCellSize t = true)
    (h0 : s.getD 0 0 = t.getD 0 0) (h1 : s.getD 1 0 = t.getD 1 0) :
    (useDctProgram (addCellSize cache s) t).2.2 = false
    ∧ ∀ (c : DctCache) (u : List ℚ), c.programs.lookup (joinKey u) = none →
        (useDctProgram c u).2.2 = true
        ∧ (useDctProgram c u).1.programs.lookup (joinKey u)
            = some (useDctProgram c u).2.1 := by
  constructor
  · obtain ⟨a, b, rfl⟩ := List.length_eq_two.mp hs2
    obtain ⟨a2, b2, rfl⟩ := List.length_eq_two.mp ht2
    simp only [List.getD_cons_zero, List.getD_cons_succ] at h0 h1
    subst h0 h1
    simp only [addCellSize, hs]
    cases hlook : cache.programs.lookup (joinKey [a, b]) with
    | some p => simp [useDctProgram, hlook]
    | none => simp [useDctProgram, List.lookup]
  · intro c u hmiss
    simp [useDctProgram, hmiss, List.lookup]

/-- Witness for C9 at s = t = [2,3] on the empty cache. -/
theorem useDctProgram_value_keyed_witness :
    isCellSize [2, 3] = true
      ∧ (useDctProgram (addCellSize ⟨[], 0⟩ [2, 3]) [2, 3]).2.2 = false := by
  exact ⟨by decide,
    (useDctProgram_value_keyed ⟨[], 0⟩ [2, 3] [2, 3] rfl rfl (by decide)
      (by decide) rfl rfl).1⟩

/-! ## Reading back a ProcessingBuffer (src/cookiecut.js lines 241-258)

`readCells` reads the raw pixel buffer (a flat byte array in which raster
row 0 is stored at the bottom, four bytes per pixel, rows of
`width = cellSize[0]*cellCount[0]` pixels) and reshapes it into the 4-level
grid `[gridRow][gridColumn][cellRow][cellColumn]`, applying `mapPixel` to
each 4-byte pixel.  The byte buffer is modelled as a total function from
byte index to byte value, and `pixelBuffer.slice(index, index+4)` as the
4-element list of bytes starting at `index`. -/
def readCells {α : Type} (cellSize cellCount : ℕ × ℕ) (pixelBuffer : ℕ → ℕ)
    (mapPixel : List ℕ → α) : List (List (List (List α))) :=
  (List.range cellCount.2).map fun gridRow =>
    (List.range cellCount.1).map fun gridColumn =>
      (List.range cellSize.2).map fun cellRow =>
        (List.range cellSize.1).map fun cellColumn =>
          -- pixelRow = (cellCount[1]-gridRow-1)*cellSize[1] + (cellSize[1]-cellRow-1)
          -- pixelColumn = gridColumn*cellSize[0] + cellColumn
          -- index = (pixelRow*width + pixelColumn)*4
          mapPixel ((List.range 4).map fun k =>
            pixelBuffer ((((cellCount.2 - gridRow - 1) * cellSize.2
                            + (cellSize.2 - cellRow - 1))
                          * (cellSize.1 * cellCount.1)
                          + (gridColumn * cellSize.1 + cellColumn)) * 4 + k))

lemma getD_map_range {α : Type} (n k : ℕ) (f : ℕ → α) (d : α) (h : k < n) :
    ((List.range n).map f).getD k d = f k := by
  simp [List.getD, List.getElem?_map, List.getElem?_range h]

lemma flipped_row_index (R r i h : ℕ) (hR : R < r) (hi : i < h) :
    (r - R - 1) * h + (h - i - 1) = r * h - 1 - (R * h + i) := by
  obtain ⟨t, rfl⟩ : ∃ t, r = R + t + 1 := ⟨r - R - 1, by omega⟩
  obtain ⟨s, rfl⟩ : ∃ s, h = i + s + 1 := ⟨h - i - 1, by omega⟩
  have e1 : R + t + 1 - R - 1 = t := by omega
  have e2 : i + s + 1 - i - 1 = s := by omega
  rw [e1, e2]
  have expand : (R + t + 1) * (i + s + 1)
      = R * (i + s + 1) + i + (t * (i + s + 1) + s + 1) := by ring
  rw [expand]
  generalize R * (i + s + 1) = A
  generalize t * (i + s + 1) = B
  omega

/-- C1: for a valid CellSize (w,h) and CellCount (c,r) and a backing buffer
whose raw row 0 is at the bottom, grid cell (R,C) at in-cell position (i,j)
of the `readCells` result holds `mapPixel` of the raw pixel at column
`C*w + j` and raw row `(r*h-1) - (R*h + i)` (in particular cell (0,0) at
(0,0) holds the top-left pixel of the logical image). -/
theorem readCells_logical_grid_order {α : Type} (w h c r : ℕ)
    (hw : 0 < w) (hh : 0 < h) (hc : 0 < c) (hr : 0 < r)
    (pixelBuffer : ℕ → ℕ) (mapPixel : List ℕ → α) (d : α)
    (R C i j : ℕ) (hR : R < r) (hC : C < c) (hi : i < h) (hj : j < w) :
    ((((readCells (w, h) (c, r) pixelBuffer mapPixel).getD R []).getD C
        []).getD i []).getD j d
      = mapPixel ((List.range 4).map fun k =>
          pixelBuffer (((r * h - 1 - (R * h + i)) * (w * c) + (C * w + j)) * 4
            + k)) := by
  simp only [readCells]
  rw [getD_map_range _ _ _ _ hR, getD_map_range _ _ _ _ hC,
    getD_map_range _ _ _ _ hi, getD_map_range _ _ _ _ hj]
  simp only [flipped_row_index R r i h hR hi]

/-- Witness for C1 at CellSize (1,2), CellCount (1,2), cell (0,0), in-cell
position (1,0): the identity map pixel at byte index
((2*2-1-(0*2+1))*(1*1) + 0)*4 = 8, the second raw row from the top. -/
theorem readCells_logical_grid_order_witness :
    ((0 < 1 ∧ 0 < 2) ∧ (0 < 1 ∧ 1 < 2)) ∧
    ((((readCells (1, 2) (1, 2) (fun b => b) (fun p => p)).getD 0 []).getD 0
        []).getD 1 []).getD 0 ([] : List ℕ)
      = (List.range 4).map fun k =>
          ((2 * 2 - 1 - (0 * 2 + 1)) * (1 * 1) + (0 * 1 + 0)) * 4 + k := by
  exact ⟨⟨⟨Nat.one_pos, Nat.zero_lt_two⟩, ⟨Nat.one_pos, Nat.one_lt_two⟩⟩,
    readCells_logical_grid_order 1 2 1 2 Nat.one_pos Nat.zero_lt_two
      Nat.one_pos Nat.zero_lt_two (fun b => b) (fun p => p) [] 0 0 1 0
      Nat.zero_lt_two Nat.one_pos Nat.one_lt_two Nat.one_pos⟩

/-! ## FullImage construction (src/cookiecut.js lines 306-330)

The source computes
`this.textureSizeClipped = this.size.map[0] > sizeLimit || this.size.map[1] > sizeLimit`.
`this.size.map` is the `Array.prototype.map` *function object*, so
`this.size.map[0]` and `this.size.map[1]` are `undefined`, and a JS
comparison with an `undefined` operand converts it to NaN and is false.
Hence the flag is always false and the downscale branch is dead code. -/

/-- Indexing the `Array.prototype.map` function object of the size array:
a function has no numeric element properties, so the access is `undefined`
for every index. -/
def sizeMapIndexed (size : List ℚ) (i : ℕ) : Option ℚ := none

/-- JS `>` where the left operand may be `undefined` (`none`): `undefined`
converts to NaN and every NaN comparison is false. -/
def jsOptGt (x : Option ℚ) (y : ℚ) : Bool :=
  match x with
  | none => false
  | some v => decide (y < v)

/-- The FullImage constructor: records the (possibly downscaled) size and the
clipped flag.  The downscale branch mirrors the source (uniform factor
`max(dim/limit)`, floored scaled dimensions) but is unreachable because the
flag computation indexes the `map` function instead of the size array. -/
def FullImage (naturalWidth naturalHeight sizeLimit : ℕ) : (ℕ × ℕ) × Bool :=
  let size : List ℚ := [(naturalWidth : ℚ), (naturalHeight : ℚ)]
  let textureSizeClipped :=
    jsOptGt (sizeMapIndexed size 0) (sizeLimit : ℚ)
      || jsOptGt (sizeMapIndexed size 1) (sizeLimit : ℚ)
  if textureSizeClipped then
    let overScale : ℚ := max ((naturalWidth : ℚ) / (sizeLimit : ℚ))
      ((naturalHeight : ℚ) / (sizeLimit : ℚ))
    ((⌊(naturalWidth : ℚ) / overScale⌋.toNat,
      ⌊(naturalHeight : ℚ) / overScale⌋.toNat), true)
  else ((naturalWidth, naturalHeight), false)

/-- C4: the claim says an oversized image is downscaled and flagged.  In the
code the oversize test reads `this.size.map[0]` / `this.size.map[1]` - index
accesses on the `map` function, which are `undefined` - so the comparison is
always false: for every input (the claimed failing input 4096 × 100 with
limit 2048 included) the size is left unchanged and `textureSizeClipped` is
`false`. -/
theorem FullImage_never_clips (naturalWidth naturalHeight sizeLimit : ℕ) :
    FullImage naturalWidth naturalHeight sizeLimit
      = ((naturalWidth, naturalHeight), false) := rfl

/-! ## Image cell-size derivation (src/cookiecut.js lines 261-273)

The Image constructor derives a CellSize from the source aspect ratio:
`cellAspect = (naturalWidth/cellCount[0]) / (naturalHeight/cellCount[1])`,
then `[round(8*cellAspect), 8]` if `cellAspect >= 1` else
`[8, round(8/cellAspect)]`.  Only this computation is modelled; the rest of
the constructor is GPU upload.  JS `Math.round` on the nonnegative values
occurring here is `⌊x + 1/2⌋`. -/

def cellSizeConstant : ℕ := 8

def jsRound (q : ℚ) : ℤ := ⌊q + 1 / 2⌋

def ImageCellSize (naturalWidth naturalHeight : ℕ) (cellCount : ℕ × ℕ) :
    ℤ × ℤ :=
  let cellAspect : ℚ := ((naturalWidth : ℚ) / (cellCount.1 : ℚ))
    / ((naturalHeight : ℚ) / (cellCount.2 : ℚ))
  if 1 ≤ cellAspect then
    (jsRound ((cellSizeConstant : ℚ) * cellAspect), (cellSizeConstant : ℤ))
  else
    ((cellSizeConstant : ℤ), jsRound ((cellSizeConstant : ℚ) / cellAspect))

/-- C10: for positive image dimensions and a valid CellCount, the derived
cell size has two positive integer components and its smaller component is
`cellSizeConstant = 8`. -/
theorem ImageCellSize_valid_min_eight (w h : ℕ) (cc : ℕ × ℕ)
    (hw : 0 < w) (hh : 0 < h) (hc : 0 < cc.1) (hr : 0 < cc.2) :
    0 < (ImageCellSize w h cc).1 ∧ 0 < (ImageCellSize w h cc).2
      ∧ min (ImageCellSize w h cc).1 (ImageCellSize w h cc).2
          = (cellSizeConstant : ℤ)
      ∧ (cellSizeConstant : ℤ) = 8 := by
  have hwq : (0 : ℚ) < w := by exact_mod_cast hw
  have hhq : (0 : ℚ) < h := by exact_mod_cast hh
  have hcq : (0 : ℚ) < cc.1 := by exact_mod_cast hc
  have hrq : (0 : ℚ) < cc.2 := by exact_mod_cast hr
  have haspect : (0 : ℚ) < ((w : ℚ) / (cc.1 : ℚ)) / ((h : ℚ) / (cc.2 : ℚ)) :=
    div_pos (div_pos hwq hcq) (div_pos hhq hrq)
  set aspect : ℚ := ((w : ℚ) / (cc.1 : ℚ)) / ((h : ℚ) / (cc.2 : ℚ)) with ha
  simp only [ImageCellSize, cellSizeConstant, jsRound, ← ha]
  by_cases hcase : 1 ≤ aspect
  · have h8 : (8 : ℤ) ≤ ⌊(8 : ℚ) * aspect + 1 / 2⌋ := by
      rw [Int.le_floor]
      push_cast
      nlinarith
    simp only [if_pos hcase]
    push_cast
    refine ⟨by omega, by norm_num, by omega, by norm_num⟩
  · have hlt : aspect < 1 := lt_of_not_le hcase
    have hdiv : (8 : ℚ) ≤ 8 / aspect := by
      rw [le_div_iff₀ haspect]
      nlinarith
    have h8 : (8 : ℤ) ≤ ⌊(8 : ℚ) / aspect + 1 / 2⌋ := by
      rw [Int.le_floor]
      push_cast
      linarith
    simp only [if_neg hcase]
    push_cast
    refine ⟨by norm_num, by omega, by omega, by norm_num⟩

/-- Witness for C10 at a 1×1 image with CellCount (1,1): the derived cell
size is the pair (8, 8). -/
theorem ImageCellSize_valid_min_eight_witness :
    (0 < 1) ∧ 0 < (ImageCellSize 1 1 (1, 1)).1
      ∧ 0 < (ImageCellSize 1 1 (1, 1)).2
      ∧ min (ImageCellSize 1 1 (1, 1)).1 (ImageCellSize 1 1 (1, 1)).2
          = (cellSizeConstant : ℤ)
      ∧ (cellSizeConstant : ℤ) = 8 :=
  ⟨Nat.one_pos,
    ImageCellSize_valid_min_eight 1 1 (1, 1) Nat.one_pos Nat.one_pos
      Nat.one_pos Nat.one_pos⟩


/-! ## Glyph DCT computation (src/cookiecut.js lines 418-487)

`computeGlyphDcts` first throws unless every element of `characters` is a
string whose JS `.length` is exactly 1; JS string length counts UTF-16 code
units, so a single code point at or above U+10000 (a surrogate pair) has
length 2 and is rejected.  Next the `switch (valueCheck)` throws unless the
flag is the string "lights" or "darks" (`null` and unrecognized values both
throw, with different messages; only the presence of an error matters to the
claim, so one message per branch is kept).  The atlas is
`gridSize = Math.ceil(Math.sqrt(characters.length))` cells per side; the
canvas rasterization and GPU pass are abstracted as the read-back CellGrid
`dctGrid` of per-cell signatures (indexed [gridRow][gridColumn]); the result
is `resultCells.flat(1).slice(0, characters.length)`. -/

/-- JS `String.prototype.length`: UTF-16 code units (1 for a BMP code point,
2 for a code point at or above 0x10000). -/
def utf16Length (s : String) : ℕ :=
  (s.data.map fun c => if c.toNat < 0x10000 then 1 else 2).sum

/-- `Math.ceil(Math.sqrt(n))` on a natural number: `Nat.sqrt n` when `n` is a
perfect square, one more otherwise (the least k with n ≤ k*k). -/
def gridSizeFor (n : ℕ) : ℕ :=
  if Nat.sqrt n * Nat.sqrt n = n then Nat.sqrt n else Nat.sqrt n + 1

def computeGlyphDcts {α : Type} (characters : List String)
    (valueCheck : Option String) (dctGrid : List (List α)) :
    Except String (List α) :=
  if characters.any (fun c => utf16Length c ≠ 1) then
    .error ("character parameter was not a length-1 string")
  else
    match valueCheck with
    | some s =>
        if s = "lights" ∨ s = "darks" then
          .ok (dctGrid.flatten.take characters.length)
        else .error ("unrecognized value check")
    | none => .error ("missing value check at glyph DCT computation")

lemma gridSizeFor_sq_le (n : ℕ) : n ≤ gridSizeFor n * gridSizeFor n := by
  unfold gridSizeFor
  split
  next heq => exact le_of_eq heq.symm
  next _ => exact le_of_lt (Nat.lt_succ_sqrt n)

lemma gridSizeFor_two : gridSizeFor 2 = 2 := by
  have hs : Nat.sqrt 2 = 1 := by
    have h1 : 1 ≤ Nat.sqrt 2 := Nat.le_sqrt.mpr (by norm_num)
    have h2 : Nat.sqrt 2 < 2 := Nat.sqrt_lt.mpr (by norm_num)
    omega
  unfold gridSizeFor
  rw [hs]
  norm_num

/-- C8 counterexample: the claim says the function throws only when some
element is not a single code point (or the polarity flag is bad).  The
input consisting of one single-code-point string (U+1F600) with the valid
polarity "lights" is nevertheless rejected, because JS string length counts
UTF-16 code units and the astral glyph has length 2. -/
theorem computeGlyphDcts_astral_code_point_rejected :
    computeGlyphDcts ["😀"] (some "lights") [[(0 : ℚ)]]
        = .error ("character parameter was not a length-1 string")
      ∧ "😀".data.length = 1 :=
  ⟨rfl, rfl⟩

/-- C8 amended: `computeGlyphDcts` throws exactly when some element of the
character list is not one UTF-16 code unit long (so a single astral code
point is also rejected) or the polarity flag is absent or not
"lights"/"darks"; on the non-error path, with the atlas DCT grid of shape
gridSizeFor n × gridSizeFor n, it returns exactly n = characters.length
signatures: the first n cells of the grid in row-major order, unused
trailing atlas cells discarded. -/
theorem computeGlyphDcts_error_iff_and_slice {α : Type}
    (characters : List String) (valueCheck : Option String)
    (dctGrid : List (List α))
    (hrows : dctGrid.length = gridSizeFor characters.length)
    (hcols : ∀ row ∈ dctGrid, row.length = gridSizeFor characters.length) :
    ((∃ e, computeGlyphDcts characters valueCheck dctGrid = .error e)
        ↔ ((∃ c ∈ characters, utf16Length c ≠ 1)
            ∨ (valueCheck ≠ some "lights" ∧ valueCheck ≠ some "darks")))
    ∧ ∀ res, computeGlyphDcts characters valueCheck dctGrid = .ok res →
        res = dctGrid.flatten.take characters.length
        ∧ res.length = characters.length := by
  have hflatlen : dctGrid.flatten.length
      = gridSizeFor characters.length * gridSizeFor characters.length := by
    rw [List.length_flatten, List.map_congr_left hcols, List.map_const',
      List.sum_replicate, smul_eq_mul, hrows]
  cases hbad : characters.any (fun c => utf16Length c ≠ 1) with
  | true =>
      have hex : ∃ c ∈ characters, utf16Length c ≠ 1 := by simpa using hbad
      have heq : computeGlyphDcts characters valueCheck dctGrid
          = .error ("character parameter was not a length-1 string") := by
        unfold computeGlyphDcts
        rw [if_pos hbad]
      rw [heq]
      refine ⟨⟨fun _ => Or.inl hex, fun _ => ⟨_, rfl⟩⟩, ?_⟩
      intro res hres
      exact absurd hres (by simp)
  | false =>
      have hnoex : ¬ ∃ c ∈ characters, utf16Length c ≠ 1 := by simpa using hbad
      have heq : computeGlyphDcts characters valueCheck dctGrid
          = match valueCheck with
            | some s =>
                if s = "lights" ∨ s = "darks" then
                  Except.ok (dctGrid.flatten.take characters.length)
                else Except.error ("unrecognized value check")
            | none =>
                Except.error ("missing value check at glyph DCT computation") := by
        unfold computeGlyphDcts
        rw [if_neg (by rw [hbad]; simp)]
      rw [heq]
      cases valueCheck with
      | none =>
          refine ⟨⟨fun _ => Or.inr ⟨by simp, by simp⟩, fun _ => ⟨_, rfl⟩⟩, ?_⟩
          intro res hres
          exact absurd hres (by simp)
      | some s =>
          by_cases hsv : s = "lights" ∨ s = "darks"
          · dsimp only
            rw [if_pos hsv]
            constructor
            · constructor
              · rintro ⟨e, he⟩
                exact absurd he (by simp)
              · rintro (hb | ⟨h1, h2⟩)
                · exact absurd hb hnoex
                · rcases hsv with rfl | rfl
                  · exact absurd rfl h1
                  · exact absurd rfl h2
            · intro res hres
              injection hres with hres
              subst hres
              refine ⟨rfl, ?_⟩
              rw [List.length_take, hflatlen]
              exact Nat.min_eq_left (gridSizeFor_sq_le characters.length)
          · dsimp only
            rw [if_neg hsv]
            push_neg at hsv
            refine ⟨⟨fun _ => Or.inr ⟨by simp [hsv.1], by simp [hsv.2]⟩,
              fun _ => ⟨_, rfl⟩⟩, ?_⟩
            intro res hres
            exact absurd hres (by simp)

/-- Witness for C8 amended: two BMP characters with polarity "darks" on a
2 × 2 atlas grid; the result keeps the first two cells and discards the two
unused trailing atlas cells. -/
theorem computeGlyphDcts_error_iff_and_slice_witness :
    (([[10, 20], [30, 40]] : List (List ℚ)).length = gridSizeFor 2
      ∧ computeGlyphDcts [".", "@"] (some "darks")
          ([[10, 20], [30, 40]] : List (List ℚ)) = .ok [10, 20])
      ∧ ∀ res, computeGlyphDcts [".", "@"] (some "darks")
            ([[10, 20], [30, 40]] : List (List ℚ)) = .ok res →
          res = ([[10, 20], [30, 40]] : List (List ℚ)).flatten.take 2
          ∧ res.length = 2 := by
  have hg : gridSizeFor 2 = 2 := gridSizeFor_two
  have hrows : ([[10, 20], [30, 40]] : List (List ℚ)).length
      = gridSizeFor ([".", "@"] : List String).length := by simp [hg]
  have hcols : ∀ row ∈ ([[10, 20], [30, 40]] : List (List ℚ)),
      row.length = gridSizeFor ([".", "@"] : List String).length := by
    intro row hr
    fin_cases hr <;> simp [hg]
  have h := computeGlyphDcts_error_iff_and_slice [".", "@"] (some "darks")
    ([[10, 20], [30, 40]] : List (List ℚ)) hrows hcols
  exact ⟨⟨by simp [hg], rfl⟩, h.2⟩

/-! ## Cell mean colors (src/cookiecut.js lines 348-389)

`computeCellMeans` redraws the image into the ProcessingBuffer and reads it
back with `(pixel) => maskPixel(Array.from(pixel, (x) => x/255))`; the GPU
redraw and the byte decoding are abstracted by taking the normalized
read-back CellGrid (pixels as rationals in [0,1]) as input.  The mask test
compares `colorDistance(rgb, mask) < epsilon` where `colorDistance` (src
line 93) is `Math.hypot` of the componentwise differences, i.e. the
Euclidean distance; both sides being nonnegative for a nonnegative
tolerance, the comparison is equivalent over ℚ to comparing squares, which
keeps the predicate decidable. -/

@[ext]
structure Pixel (α : Type) where
  r : α
  g : α
  b : α
  a : α
deriving DecidableEq, Repr

/-- `colorDistance(pixel.slice(0,3), mask) < epsilon`, compared through
squares (equivalent for nonnegative epsilon). -/
def colorDistanceLtSq (p : Pixel ℚ) (mask : ℚ × ℚ × ℚ) (eps : ℚ) : Bool :=
  decide ((p.r - mask.1) ^ 2 + (p.g - mask.2.1) ^ 2 + (p.b - mask.2.2) ^ 2
    < eps ^ 2)

/-- The `maskPixel` closure (src lines 355-360): a pixel within epsilon of
some mask color becomes null (`none`), every other pixel passes through.
An absent mask list behaves like the empty list (`some` over an empty list
is false, so no pixel is excluded in either case). -/
def maskPixel (masks : List (ℚ × ℚ × ℚ)) (eps : ℚ) (p : Pixel ℚ) :
    Option (Pixel ℚ) :=
  if masks.any (fun m => colorDistanceLtSq p m eps) then none else some p

def premult (p : Pixel ℚ) : Pixel ℚ :=
  ⟨p.r * p.a, p.g * p.a, p.b * p.a, p.a⟩

def addPixel (x y : Pixel ℚ) : Pixel ℚ :=
  ⟨x.r + y.r, x.g + y.g, x.b + y.b, x.a + y.a⟩

/-- The per-cell closure of `computeCellMeans` (src lines 364-386).  `nRows`
is `pixels.length` - the length of the *outer grid*, which the source
closure captures and uses as the divisor of the premultiplied sums (it
cancels when un-premultiplying, and the alpha guard only tests a sign, so
the choice is unobservable).  The trailing `[] => ...` arm of the match is
unreachable: the branch is only taken when `flatPixels` is non-empty. -/
def cellMean (nRows : ℕ) (cell : List (List (Option (Pixel ℚ)))) : Pixel ℚ :=
  let flat := cell.flatten
  let flatPixels := flat.filterMap id
  if flatPixels.length = 0 then ⟨0, 0, 0, 0⟩
  else
    match flatPixels.map premult with
    | [] => ⟨0, 0, 0, 0⟩
    | q :: rest =>
        let s := rest.foldl addPixel q
        let m : Pixel ℚ := ⟨s.r / (nRows : ℚ), s.g / (nRows : ℚ),
                            s.b / (nRows : ℚ), s.a / (nRows : ℚ)⟩
        if 0 < m.a then
          ⟨m.r / m.a, m.g / m.a, m.b / m.a,
           (flat.map fun p? => (p?.map Pixel.a).getD 0).sum / (flat.length : ℚ)⟩
        else ⟨0, 0, 0, 0⟩

def computeCellMeans (masks : List (ℚ × ℚ × ℚ)) (eps : ℚ)
    (grid : List (List (List (List (Pixel ℚ))))) : List (List (Pixel ℚ)) :=
  let pixels := grid.map fun row => row.map fun cell =>
    cell.map fun cellRow => cellRow.map (maskPixel masks eps)
  pixels.map fun row => row.map fun cell => cellMean pixels.length cell

lemma getD_map_of_lt {α β : Type} (l : List α) (f : α → β) (i : ℕ)
    (d : β) (d2 : α) (h : i < l.length) :
    (l.map f).getD i d = f (l.getD i d2) := by
  simp [List.getD, List.getElem?_map, List.getElem?_eq_getElem h]

lemma foldl_addPixel (l : List (Pixel ℚ)) (acc : Pixel ℚ) :
    l.foldl addPixel acc
      = ⟨acc.r + (l.map Pixel.r).sum, acc.g + (l.map Pixel.g).sum,
         acc.b + (l.map Pixel.b).sum, acc.a + (l.map Pixel.a).sum⟩ := by
  induction l generalizing acc with
  | nil => simp
  | cons p rest ih =>
      simp only [List.foldl_cons, ih, addPixel, List.map_cons, List.sum_cons]
      ext <;> dsimp <;> ring

lemma filterMap_maskPixel (masks : List (ℚ × ℚ × ℚ)) (eps : ℚ)
    (l : List (Pixel ℚ)) :
    (l.map (maskPixel masks eps)).filterMap id
      = l.filter fun p => !(masks.any fun m => colorDistanceLtSq p m eps) := by
  induction l with
  | nil => rfl
  | cons p rest ih =>
      by_cases hp : (masks.any fun m => colorDistanceLtSq p m eps) = true
      · simp [maskPixel, hp, ih]
      · simp [maskPixel, hp, ih]

lemma maskPixel_alpha (masks : List (ℚ × ℚ × ℚ)) (eps : ℚ) (p : Pixel ℚ) :
    (((maskPixel masks eps p).map Pixel.a).getD 0)
      = if (masks.any fun m => colorDistanceLtSq p m eps) then 0 else p.a := by
  by_cases hp : (masks.any fun m => colorDistanceLtSq p m eps) = true
  · simp [maskPixel, hp]
  · simp [maskPixel, hp]

lemma div_div_same_factor (x y n m : ℚ) (hy : y ≠ 0) (hn : n ≠ 0)
    (hm : m ≠ 0) : (x / n) / (y / n) = (x / m) / (y / m) := by
  field_simp

lemma computeCellMeans_getD (masks : List (ℚ × ℚ × ℚ)) (eps : ℚ)
    (grid : List (List (List (List (Pixel ℚ))))) (R C : ℕ)
    (hR : R < grid.length) (hC : C < (grid.getD R []).length) :
    ((computeCellMeans masks eps grid).getD R []).getD C ⟨0, 0, 0, 0⟩
      = cellMean grid.length
          (((grid.getD R []).getD C []).map
            (List.map (maskPixel masks eps))) := by
  unfold computeCellMeans
  rw [getD_map_of_lt _ _ _ _ [] (by simpa using hR),
    getD_map_of_lt _ _ _ _ [] hR, List.map_map,
    getD_map_of_lt _ _ _ _ [] hC, List.length_map]
  rfl

/-- C5: for every cell of the (normalized) read-back grid and every mask set
with tolerance epsilon: if every pixel of the cell is within epsilon of some
mask color, the cell mean is the fully transparent zero color; otherwise,
when the unmasked pixels have positive total alpha, the RGB of the mean is
the unweighted average of the unmasked pixels taken in premultiplied-alpha
space and then un-premultiplied (masked pixels never influence RGB), while
the alpha is the mean over all pixels of the cell with masked pixels
contributing zero. -/
theorem computeCellMeans_masked_mean (masks : List (ℚ × ℚ × ℚ)) (eps : ℚ)
    (heps : 0 ≤ eps)
    (grid : List (List (List (List (Pixel ℚ)))))
    (R C : ℕ) (hR : R < grid.length) (hC : C < (grid.getD R []).length)
    (cellFlat unmasked : List (Pixel ℚ)) (mean : Pixel ℚ)
    (hcf : cellFlat = ((grid.getD R []).getD C []).flatten)
    (hun : unmasked = cellFlat.filter fun p =>
      !(masks.any fun m => colorDistanceLtSq p m eps))
    (hmean : mean = ((computeCellMeans masks eps grid).getD R []).getD C
      ⟨0, 0, 0, 0⟩) :
    ((∀ p ∈ cellFlat, (masks.any fun m => colorDistanceLtSq p m eps) = true) →
        mean = ⟨0, 0, 0, 0⟩)
    ∧ (0 < (unmasked.map Pixel.a).sum →
        mean = ⟨((unmasked.map fun p => p.r * p.a).sum / (unmasked.length : ℚ))
                  / ((unmasked.map Pixel.a).sum / (unmasked.length : ℚ)),
                ((unmasked.map fun p => p.g * p.a).sum / (unmasked.length : ℚ))
                  / ((unmasked.map Pixel.a).sum / (unmasked.length : ℚ)),
                ((unmasked.map fun p => p.b * p.a).sum / (unmasked.length : ℚ))
                  / ((unmasked.map Pixel.a).sum / (unmasked.length : ℚ)),
                (cellFlat.map fun p =>
                    if (masks.any fun m => colorDistanceLtSq p m eps) then
                      (0 : ℚ)
                    else p.a).sum / (cellFlat.length : ℚ)⟩) := by
  have hmean2 : mean = cellMean grid.length
      (((grid.getD R []).getD C []).map (List.map (maskPixel masks eps))) := by
    rw [hmean, computeCellMeans_getD masks eps grid R C hR hC]
  have hflat : (((grid.getD R []).getD C []).map
      (List.map (maskPixel masks eps))).flatten
      = cellFlat.map (maskPixel masks eps) := by
    rw [hcf, List.map_flatten]
  have hfp : ((((grid.getD R []).getD C []).map
      (List.map (maskPixel masks eps))).flatten).filterMap id = unmasked := by
    rw [hflat, filterMap_maskPixel, hun]
  constructor
  · intro hall
    have hnil : unmasked = [] := by
      rw [hun]
      rw [List.filter_eq_nil_iff]
      intro p hp
      simp [hall p hp]
    rw [hmean2]
    simp only [cellMean]
    rw [hfp, hnil]
    simp
  · intro hsum
    have hneq : unmasked ≠ [] := by
      intro h
      rw [h] at hsum
      simp at hsum
    obtain ⟨p0, ps, hcons⟩ := List.exists_cons_of_ne_nil hneq
    have hlen0 : ¬ unmasked.length = 0 := by
      rw [hcons]
      simp
    have hnrows : (0 : ℚ) < (grid.length : ℚ) := by
      have : 0 < grid.length := lt_of_le_of_lt (Nat.zero_le R) hR
      exact_mod_cast this
    have hsa : (unmasked.map Pixel.a).sum ≠ 0 := ne_of_gt hsum
    have hmq : ((unmasked.length : ℚ)) ≠ 0 := by
      have : 0 < unmasked.length := by rw [hcons]; simp
      exact_mod_cast ne_of_gt this
    have hsums : (unmasked.map premult) = premult p0 :: ps.map premult := by
      rw [hcons, List.map_cons]
    rw [hmean2]
    simp only [cellMean]
    rw [hfp]
    rw [if_neg (by rw [hcons]; simp)]
    rw [hsums]
    dsimp only
    have hfold := foldl_addPixel (ps.map premult) (premult p0)
    rw [hfold]
    have hr : (premult p0).r + ((ps.map premult).map Pixel.r).sum
        = (unmasked.map fun p => p.r * p.a).sum := by
      rw [List.map_map, hcons, List.map_cons, List.sum_cons]
      rfl
    have hg : (premult p0).g + ((ps.map premult).map Pixel.g).sum
        = (unmasked.map fun p => p.g * p.a).sum := by
      rw [List.map_map, hcons, List.map_cons, List.sum_cons]
      rfl
    have hb : (premult p0).b + ((ps.map premult).map Pixel.b).sum
        = (unmasked.map fun p => p.b * p.a).sum := by
      rw [List.map_map, hcons, List.map_cons, List.sum_cons]
      rfl
    have ha : (premult p0).a + ((ps.map premult).map Pixel.a).sum
        = (unmasked.map Pixel.a).sum := by
      rw [List.map_map, hcons, List.map_cons, List.sum_cons]
      rfl
    dsimp only
    rw [hr, hg, hb, ha]
    have hguard : 0 < (unmasked.map Pixel.a).sum / (grid.length : ℚ) :=
      div_pos hsum hnrows
    rw [if_pos hguard]
    have halpha : ((cellFlat.map (maskPixel masks eps)).map
        fun p? => ((p?.map Pixel.a).getD 0)).sum
        = (cellFlat.map fun p =>
            if (masks.any fun m => colorDistanceLtSq p m eps) then (0 : ℚ)
            else p.a).sum := by
      rw [List.map_map]
      exact congrArg List.sum
        (List.map_congr_left fun p _ => maskPixel_alpha masks eps p)
    rw [hflat, halpha, List.length_map]
    have hnq : ((grid.length : ℚ)) ≠ 0 := ne_of_gt hnrows
    ext <;> dsimp
    · exact div_div_same_factor _ _ _ _ hsa hnq hmq
    · exact div_div_same_factor _ _ _ _ hsa hnq hmq
    · exact div_div_same_factor _ _ _ _ hsa hnq hmq

/-- Witness for C5: one 1×1-pixel cell with a black mask and the default
tolerance 0.06 = 3/50; the single white opaque pixel is far from the mask,
so the mean is the pixel itself. -/
theorem computeCellMeans_masked_mean_witness :
    (0 : ℚ) ≤ 3 / 50
      ∧ ((computeCellMeans [(0, 0, 0)] (3 / 50)
            [[[[⟨1, 1, 1, 1⟩]]]]).getD 0 []).getD 0 ⟨0, 0, 0, 0⟩
          = ⟨1, 1, 1, 1⟩ := by
  constructor
  · norm_num
  · have h := computeCellMeans_masked_mean [(0, 0, 0)] (3 / 50) (by norm_num)
      [[[[⟨1, 1, 1, 1⟩]]]] 0 0 (by norm_num) (by norm_num)
      [⟨1, 1, 1, 1⟩] [⟨1, 1, 1, 1⟩] _ (by norm_num)
      (by norm_num [colorDistanceLtSq]) rfl
    have h2 := h.2 (by norm_num)
    rw [h2]
    norm_num [colorDistanceLtSq]

/-! ## The per-cell DCT pass (src/cookiecut.js lines 49-79 and 405-416)

The DCT fragment shader computes, for the output pixel representing
frequency coordinate (u,v) of one cell, the type-II DCT of the cell with
pixel values `length(rgb)*(1/sqrt(3))*alpha - 0.5`, normalized by
`0.25*W*H` and re-biased by `+0.5` for storage.  Shader floats are modelled
as real numbers; the screen-coordinate plumbing that routes each output
pixel to its (cell, u, v) triple is resolved, and `dctStored W H cell u v`
is the value stored at frequency position (u,v) for a cell given as a
pixel-valued function.  `computeImageDct` reads the result back through the
channel decoder `(pixel[0]/255)*2 - 1`; its affine part is `dctDecode`. -/

noncomputable def dctRawValue (p : Pixel ℝ) : ℝ :=
  Real.sqrt (p.r ^ 2 + p.g ^ 2 + p.b ^ 2) * (1 / Real.sqrt 3) * p.a

noncomputable def dctPixelValue (p : Pixel ℝ) : ℝ := dctRawValue p - 0.5

noncomputable def dctStored (W H : ℕ) (cell : ℕ → ℕ → Pixel ℝ)
    (u v : ℕ) : ℝ :=
  (∑ x in Finset.range W, ∑ y in Finset.range H,
      dctPixelValue (cell x y)
        * Real.cos ((2 * (x : ℝ) + 1) * (u : ℝ) * Real.pi / (2 * (W : ℝ)))
        * Real.cos ((2 * (y : ℝ) + 1) * (v : ℝ) * Real.pi / (2 * (H : ℝ))))
    / (0.25 * (W : ℝ) * (H : ℝ)) + 0.5

/-- The affine decoder applied by `computeImageDct` when reading stored DCT
channels back (src line 415): `p → p*2 - 1`. -/
def dctDecode (p : ℝ) : ℝ := p * 2 - 1

/-- For 0 < u < n the sum of the type-II DCT cosine basis column vanishes:
`∑_{x<n} cos((2x+1)uπ/(2n)) = 0`, by telescoping against `2 sin(uπ/(2n))`. -/
lemma sum_cos_odd_mul (n u : ℕ) (hu : 0 < u) (hun : u < n) :
    ∑ x in Finset.range n,
      Real.cos ((2 * (x : ℝ) + 1) * (u : ℝ) * Real.pi / (2 * (n : ℝ))) = 0 := by
  have hn0 : (0 : ℝ) < (n : ℝ) := by
    have : 0 < n := lt_trans hu hun
    exact_mod_cast this
  have hu0 : (0 : ℝ) < (u : ℝ) := by exact_mod_cast hu
  set α : ℝ := (u : ℝ) * Real.pi / (2 * (n : ℝ)) with hα
  have harg : ∀ x : ℕ, (2 * (x : ℝ) + 1) * (u : ℝ) * Real.pi / (2 * (n : ℝ))
      = (2 * (x : ℝ) + 1) * α := by
    intro x
    rw [hα]
    field_simp
    ring
  have hαpos : 0 < α := by
    rw [hα]
    positivity
  have hαlt : α < Real.pi := by
    rw [hα, div_lt_iff (by positivity)]
    have hun2 : (u : ℝ) < (n : ℝ) := by exact_mod_cast hun
    nlinarith [Real.pi_pos]
  have hsin : Real.sin α ≠ 0 :=
    ne_of_gt (Real.sin_pos_of_pos_of_lt_pi hαpos hαlt)
  have hkey : ∀ x : ℕ, 2 * Real.sin α * Real.cos ((2 * (x : ℝ) + 1) * α)
      = Real.sin (2 * ((x : ℝ) + 1) * α) - Real.sin (2 * (x : ℝ) * α) := by
    intro x
    have e1 : 2 * ((x : ℝ) + 1) * α = (2 * (x : ℝ) + 1) * α + α := by ring
    have e2 : 2 * (x : ℝ) * α = (2 * (x : ℝ) + 1) * α - α := by ring
    rw [e1, e2, Real.sin_add, Real.sin_sub]
    ring
  have htel : ∑ x in Finset.range n,
      (Real.sin (2 * ((x : ℝ) + 1) * α) - Real.sin (2 * (x : ℝ) * α))
      = Real.sin (2 * (n : ℝ) * α) - Real.sin (2 * (0 : ℝ) * α) := by
    have h := Finset.sum_range_sub (fun k : ℕ => Real.sin (2 * (k : ℝ) * α)) n
    push_cast at h
    push_cast
    exact h
  have hend : Real.sin (2 * (n : ℝ) * α) = 0 := by
    have e : 2 * (n : ℝ) * α = (u : ℝ) * Real.pi := by
      rw [hα]
      field_simp
    rw [e]
    exact_mod_cast Real.sin_nat_mul_pi u
  have hmain : 2 * Real.sin α
      * (∑ x in Finset.range n, Real.cos ((2 * (x : ℝ) + 1) * α)) = 0 := by
    rw [Finset.mul_sum, Finset.sum_congr rfl (fun x _ => hkey x), htel, hend]
    simp
  have hsum0 : (∑ x in Finset.range n, Real.cos ((2 * (x : ℝ) + 1) * α)) = 0 := by
    rcases mul_eq_zero.mp hmain with h | h
    · rcases mul_eq_zero.mp h with h2 | h2
      · norm_num at h2
      · exact absurd h2 hsin
    · exact h
  calc ∑ x in Finset.range n,
        Real.cos ((2 * (x : ℝ) + 1) * (u : ℝ) * Real.pi / (2 * (n : ℝ)))
      = ∑ x in Finset.range n, Real.cos ((2 * (x : ℝ) + 1) * α) :=
        Finset.sum_congr rfl (fun x _ => by rw [harg x])
    _ = 0 := hsum0

/-- C6: on a cell of constant pixel value, the stored DCT grid has DC
coefficient (0,0) equal to the biased, normalized encoding of the constant
(the zero-centered value summed over the cell, divided by `0.25*W*H`, plus
0.5), while every other frequency position stores the zero-bias value 0.5,
which `computeImageDct`'s inverse affine map decodes to 0. -/
theorem dct_constant_cell (W H : ℕ) (hW : 4 ≤ W) (hH : 4 ≤ H)
    (p0 : Pixel ℝ) (cell : ℕ → ℕ → Pixel ℝ) (hcell : ∀ x y, cell x y = p0) :
    (dctStored W H cell 0 0
        = (∑ x in Finset.range W, ∑ y in Finset.range H,
            (dctRawValue p0 - 0.5)) / (0.25 * (W : ℝ) * (H : ℝ)) + 0.5)
    ∧ ∀ u v : ℕ, u < W → v < H → ¬(u = 0 ∧ v = 0) →
        dctStored W H cell u v = 0.5
        ∧ dctDecode (dctStored W H cell u v) = 0 := by
  constructor
  · unfold dctStored
    congr 2
    apply Finset.sum_congr rfl
    intro x _
    apply Finset.sum_congr rfl
    intro y _
    rw [hcell]
    simp [dctPixelValue]
  · intro u v huW hvH huv
    have hzero : (∑ x in Finset.range W, ∑ y in Finset.range H,
        dctPixelValue (cell x y)
          * Real.cos ((2 * (x : ℝ) + 1) * (u : ℝ) * Real.pi / (2 * (W : ℝ)))
          * Real.cos ((2 * (y : ℝ) + 1) * (v : ℝ) * Real.pi / (2 * (H : ℝ))))
        = 0 := by
      rcases Nat.eq_zero_or_pos u with hu0 | hupos
      · subst hu0
        have hvpos : 0 < v := by
          rcases Nat.eq_zero_or_pos v with hv0 | hvpos
          · exact absurd ⟨rfl, hv0⟩ huv
          · exact hvpos
        apply Finset.sum_eq_zero
        intro x _
        have step : ∀ y ∈ Finset.range H,
            dctPixelValue (cell x y)
              * Real.cos ((2 * (x : ℝ) + 1) * ((0 : ℕ) : ℝ) * Real.pi
                  / (2 * (W : ℝ)))
              * Real.cos ((2 * (y : ℝ) + 1) * (v : ℝ) * Real.pi
                  / (2 * (H : ℝ)))
            = dctPixelValue p0
              * Real.cos ((2 * (y : ℝ) + 1) * (v : ℝ) * Real.pi
                  / (2 * (H : ℝ))) := by
          intro y _
          rw [hcell]
          simp
        rw [Finset.sum_congr rfl step, ← Finset.mul_sum,
          sum_cos_odd_mul H v hvpos hvH, mul_zero]
      · have step : ∀ x ∈ Finset.range W,
            (∑ y in Finset.range H, dctPixelValue (cell x y)
              * Real.cos ((2 * (x : ℝ) + 1) * (u : ℝ) * Real.pi
                  / (2 * (W : ℝ)))
              * Real.cos ((2 * (y : ℝ) + 1) * (v : ℝ) * Real.pi
                  / (2 * (H : ℝ))))
            = Real.cos ((2 * (x : ℝ) + 1) * (u : ℝ) * Real.pi
                  / (2 * (W : ℝ)))
              * (∑ y in Finset.range H, dctPixelValue p0
                  * Real.cos ((2 * (y : ℝ) + 1) * (v : ℝ) * Real.pi
                      / (2 * (H : ℝ)))) := by
          intro x _
          rw [Finset.mul_sum]
          apply Finset.sum_congr rfl
          intro y _
          rw [hcell]
          ring
        rw [Finset.sum_congr rfl step, ← Finset.sum_mul,
          sum_cos_odd_mul W u hupos huW, zero_mul]
    have hmain : dctStored W H cell u v = 0.5 := by
      unfold dctStored
      rw [hzero]
      norm_num
    exact ⟨hmain, by rw [hmain]; norm_num [dctDecode]⟩

/-- Witness for C6 at a 4×4 cell of the constant transparent-black pixel:
the coefficient stored at frequency position (1,0) is the zero-bias value
0.5. -/
theorem dct_constant_cell_witness :
    (4 ≤ 4)
      ∧ dctStored 4 4 (fun _ _ => (⟨0, 0, 0, 1⟩ : Pixel ℝ)) 1 0 = 0.5 :=
  ⟨le_refl 4,
    ((dct_constant_cell 4 4 (le_refl 4) (le_refl 4) ⟨0, 0, 0, 1⟩
        (fun _ _ => ⟨0, 0, 0, 1⟩) (fun _ _ => rfl)).2 1 0 (by norm_num)
        (by norm_num) (by simp)).1⟩
